import Mathlib

set_option maxRecDepth 1000000

/-!
Verification development for the js-green-licenses dependency-license checker.

The development shallowly embeds the program's core:
* the JSON manifest model and validator (`src/package-json-file.ts`),
* the license-classification helpers and the dependency-graph traversal of
  the checker (`LicenseChecker` in `src/checker.ts`, current revision),
* the PR-commit retrieval retry loop (`src/github.ts`).

JavaScript objects are modelled by the inductive `Json` type; the mutable
`Set` fields of the checker become explicit lists threaded through a
state-passing interpreter; the event emitter becomes an accumulated trace of
`Event` values; thrown exceptions become `Option Exc` results.  External
collaborators that are npm libraries (spdx-correct, spdx-satisfies, semver)
are modelled from the specification at their interface boundary; each such
definition carries a doc comment saying so.
-/

namespace JsGreenLicenses

/-- Model of a parsed JSON value (the result of `JSON.parse`).  Object fields
are an association list in declaration order; `undefined` is represented by
absence (an `Option Json` elsewhere). -/
inductive Json where
  | null : Json
  | bool (b : Bool) : Json
  | num (n : Int) : Json
  | str (s : String) : Json
  | arr (xs : List Json) : Json
  | obj (fields : List (String × Json)) : Json

/-- Field lookup in an object's association list (first match). -/
def lookupField : List (String × Json) → String → Option Json
  | [], _ => none
  | (k', v) :: rest, k => if k' = k then some v else lookupField rest k

/-- Property access `j.k`: defined on objects, `undefined` (none) otherwise. -/
def Json.get : Json → String → Option Json
  | .obj fs, k => lookupField fs k
  | _, _ => none

/-- JavaScript truthiness of a value. -/
def Json.truthy : Json → Bool
  | .null => false
  | .bool b => b
  | .num n => n != 0
  | .str s => s != ""
  | .arr _ => true
  | .obj _ => true

/-- Truthiness of a possibly-undefined value (`undefined` is falsy). -/
def truthyOpt : Option Json → Bool
  | some v => v.truthy
  | none => false

/-- Whether a value is a string. -/
def Json.isStr : Json → Bool
  | .str _ => true
  | _ => false

mutual

/-- JavaScript template-literal string coercion of a value (modelled from the
JS runtime semantics; array elements are coerced elementwise and joined with
commas, approximating `Array.prototype.join`). -/
def Json.toJSString : Json → String
  | .null => "null"
  | .bool b => if b then "true" else "false"
  | .num n => toString n
  | .str s => s
  | .arr xs => String.intercalate ("," : String) (toJSStringList xs)
  | .obj _ => "[object Object]"

/-- Elementwise coercion of a list of values. -/
def toJSStringList : List Json → List String
  | [] => []
  | x :: rest => Json.toJSString x :: toJSStringList rest

end

/-- Replace (or append) a field in an object's association list. -/
def setField : List (String × Json) → String → Json → List (String × Json)
  | [], k, v => [(k, v)]
  | (k', v') :: rest, k, v =>
    if k' = k then (k, v) :: rest else (k', v') :: setField rest k v

/-- Property assignment `j.k = v` on an object; a no-op on non-objects
(the program only assigns into parsed JSON objects). -/
def Json.set : Json → String → Json → Json
  | .obj fs, k, v => .obj (setField fs k v)
  | j, _, _ => j

/-- Template-literal display of a possibly-undefined value. -/
def jsDisplay : Option Json → String
  | some v => v.toJSString
  | none => "undefined"

/-- Display of `x || 'undefined'`: the coerced value when truthy, otherwise
the literal string "undefined". -/
def jsTruthyDisplay : Option Json → String
  | some v => if v.truthy then v.toJSString else "undefined"
  | none => "undefined"

/-- Display of `x || d`: the coerced value when truthy, otherwise `d`. -/
def jsOrDefault (o : Option Json) (d : String) : String :=
  match o with
  | some v => if v.truthy then v.toJSString else d
  | none => d

/-- Whether a possibly-absent field is a string (`typeof x === 'string'`). -/
def isStrOptField : Option Json → Bool
  | some (.str _) => true
  | _ => false

/-- An optional field check: absent fields pass, present ones must satisfy
the predicate. -/
def optField (pred : Json → Bool) : Option Json → Bool
  | none => true
  | some v => pred v

/-- Validator for the legacy license object shape, from `isOldLicenseField` in
`src/package-json-file.ts`: `type` must be a string and `url`, if present,
must be a string. -/
def isOldLicenseField (j : Json) : Bool :=
  isStrOptField (j.get ("type")) &&
    (match j.get ("url") with
     | none => true
     | some (.str _) => true
     | some _ => false)

/-- Validator for the polymorphic license field, from `isLicense` in
`src/package-json-file.ts`: a string, a legacy object, or an array of legacy
objects. -/
def isLicenseField (j : Json) : Bool :=
  j.isStr || isOldLicenseField j ||
    (match j with
     | .arr xs => xs.all isOldLicenseField
     | _ => false)

/-- Validator for a dependency map, from `isDependencies` in
`src/package-json-file.ts`: every own enumerable key must map to a string.
`for..in` over an object walks its fields, over an array its indices; over
other primitives it enumerates nothing (single characters of a string are
themselves strings, so strings also pass). -/
def isDependencies (j : Json) : Bool :=
  match j with
  | .obj fs => fs.all (fun p => p.2.isStr)
  | .arr xs => xs.all Json.isStr
  | _ => true

/-- Manifest validator, from `isPackageJson` in `src/package-json-file.ts`:
a manifest with `private === true` (a boolean) is accepted outright;
otherwise `name` and `version` must be strings and the license and dependency
fields, when present, must have valid shapes. -/
def isPackageJson (j : Json) : Bool :=
  (match j.get ("private") with
   | some (.bool true) => true
   | _ => false) ||
  (isStrOptField (j.get ("name")) &&
   isStrOptField (j.get ("version")) &&
   optField isLicenseField (j.get ("license")) &&
   optField isLicenseField (j.get ("licenses")) &&
   optField isDependencies (j.get ("dependencies")) &&
   optField isDependencies (j.get ("devDependencies")))

/-- Parse entry point, from `ensurePackageJson` in
`src/package-json-file.ts`: throws (here: returns an error) on a manifest
that fails `isPackageJson`. -/
def ensurePackageJson (j : Json) : Except String Json :=
  if isPackageJson j then .ok j else .error ("Invalid package.json")

/-! External npm libraries, modelled from the spec at their interface
boundary (`spdx-correct`, `spdx-satisfies`, `semver`).  These are not code of
this repository. -/

/-- The built-in default green-license list of the checker
(`DEFAULT_GREEN_LICENSES` in `src/checker.ts`), all valid SPDX IDs. -/
def DEFAULT_GREEN_LICENSES : List String :=
  ["0BSD", "AFL-2.1", "AFL-3.0", "APSL-2.0", "Apache-1.1", "Apache-2.0",
   "Artistic-1.0", "Artistic-2.0", "BSD-2-Clause", "BSD-3-Clause", "BSL-1.0",
   "CC-BY-1.0", "CC-BY-2.0", "CC-BY-2.5", "CC-BY-3.0", "CC-BY-4.0",
   "CC0-1.0", "CDDL-1.0", "CDDL-1.1", "CPL-1.0", "EPL-1.0", "FTL",
   "IPL-1.0", "ISC", "LGPL-2.0", "LGPL-2.1", "LGPL-3.0", "LPL-1.02", "MIT",
   "MPL-1.0", "MPL-1.1", "MPL-2.0", "MS-PL", "NCSA", "OpenSSL", "PHP-3.0",
   "Ruby", "Unlicense", "W3C", "Xnet", "ZPL-2.0", "Zend-2.0", "Zlib",
   "libtiff"]

/-- Modelled from the spec: the SPDX-identifier correction performed by the
external `spdx-correct` library ("attempts to coerce a free-form string into
a valid SPDX license identifier; returns null if no correction is
possible").  The model recognizes exactly the valid SPDX IDs this
development uses (the built-in default list) and corrects each to itself;
every other string is uncorrectable. -/
def spdxCorrect (s : String) : Option String :=
  if DEFAULT_GREEN_LICENSES.contains s then some s else none

/-- Splitting a character list at every occurrence of a (nonempty) separator
sequence, with an explicit structural bound on the recursion. -/
def splitOnSeqAux (sep : List Char) : Nat → List Char → List (List Char)
  | 0, cs => [cs]
  | fuel + 1, cs =>
    if cs = [] then [[]]
    else if sep.isPrefixOf cs then
      [] :: splitOnSeqAux sep fuel (cs.drop sep.length)
    else
      match cs with
      | [] => [[]]
      | c :: rest =>
        match splitOnSeqAux sep fuel rest with
        | group :: groups => (c :: group) :: groups
        | [] => [[c]]

/-- Split a string at every occurrence of a nonempty separator string. -/
def splitOnSeq (s : String) (sep : String) : List String :=
  (splitOnSeqAux sep.data (s.data.length + 1) s.data).map String.mk

/-- Split a license disjunction string "(A OR B OR ...)" back into its
disjuncts. -/
def parseOrExpr (expr : String) : List String :=
  let stripped :=
    match expr.data with
    | '(' :: rest => if rest.getLast? = some ')' then String.mk rest.dropLast else expr
    | _ => expr
  splitOnSeq stripped (" OR ")

/-- Modelled from the spec: the external `spdx-satisfies` check for the
checker's allow-expression, which is always a flat disjunction
("satisfaction means the canonical id is a member of one of the
disjuncts"). -/
def spdxSatisfies (id : String) (expr : String) : Bool :=
  (parseOrExpr expr).contains id

/-- A nonempty all-digit string. -/
def isNumeric (s : String) : Bool :=
  s != "" && s.data.all Char.isDigit

/-- Splitting a character list at every occurrence of a single character. -/
def splitOnChar (sep : Char) : List Char → List (List Char)
  | [] => [[]]
  | c :: rest =>
    match splitOnChar sep rest with
    | group :: groups =>
      if c == sep then [] :: group :: groups else (c :: group) :: groups
    | [] => [[c]]

/-- Modelled from the spec: validity of a semantic version, as decided by the
external `semver` library's `valid` ("version, if missing or not a valid
semantic version, is defaulted").  The model accepts `major.minor.patch`
numeric cores with an optional `-prerelease` suffix. -/
def semverValid (s : String) : Bool :=
  match (splitOnChar '-' s.data).head? with
  | none => false
  | some core =>
    match (splitOnChar '.' core).map String.mk with
    | [a, b, c] => isNumeric a && isNumeric b && isNumeric c
    | _ => false

/-- `semver.valid(json.version)` truthiness for a possibly-absent manifest
version field: non-string values parse to null. -/
def semverValidField : Option Json → Bool
  | some (.str s) => semverValid s
  | _ => false

/-! The checker (`LicenseChecker` in `src/checker.ts`, current revision with
the allowlist naming). -/

/-- From `correctLicenseName`: the npm markers UNLICENSED/UNLICENCED map to
the canonical UNLICENSED token, everything else goes through SPDX
correction.  The verbose-mode console warning is a log-only side effect and
is elided. -/
def correctLicenseName (license : String) : Option String :=
  if license = "UNLICENSED" || license = "UNLICENCED" then some ("UNLICENSED")
  else spdxCorrect license

/-- The checker's per-run classification configuration: the canonical
allow-expression string `greenLicenseExpr`, the raw allowlist
`allowlistedLicenses` of entries that did not normalize, and the package
allowlist from configuration. -/
structure Rules where
  greenLicenseExpr : String
  allowlistedLicenses : List String
  packageAllowlist : List String

/-- Rule-set construction, from the classification part of
`LicenseChecker.init`: partition the configured (or default) green-license
list by whether each entry normalizes; the correctable entries are joined
into a parenthesized OR-expression, the rest become the raw allowlist. -/
def initRules (greenLicenses : List String) (packageAllowlist : List String) : Rules :=
  let validGreenLicenses := greenLicenses.filterMap correctLicenseName
  let invalidGreenLicenses := greenLicenses.filter (fun l => (correctLicenseName l).isNone)
  { greenLicenseExpr := "(" ++ String.intercalate (" OR ") validGreenLicenses ++ ")"
    allowlistedLicenses := invalidGreenLicenses
    packageAllowlist := packageAllowlist }

/-- The rule set obtained from the built-in defaults with no configuration. -/
def defaultRules : Rules := initRules DEFAULT_GREEN_LICENSES []

/-- From `isPackageAllowlisted`: membership of a package name in the
configured package allowlist (an absent configuration means an empty list,
so nothing is allowlisted). -/
def isPackageAllowlisted (r : Rules) (packageName : String) : Bool :=
  r.packageAllowlist.contains packageName

/-- From `isGreenLicense`: a missing or empty license is non-green;
an uncorrectable license name is checked against the raw allowlist;
a corrected name is checked against the allow-expression (an evaluation
error in the real library is caught and yields false; the model's membership
check likewise yields false for names outside the expression). -/
def isGreenLicense (r : Rules) (license : Option String) : Bool :=
  match license with
  | none => false
  | some l =>
    if l = "" then false
    else
      match correctLicenseName l with
      | none => r.allowlistedLicenses.contains l
      | some correctedName => spdxSatisfies correctedName r.greenLicenseExpr

/-- The legacy-array entry extraction `x => x.type` composed with the
truthiness filter `x => !!x` of `getLicense` (truthy values are coerced to
the string the later join would produce). -/
def licenseEntryType (x : Json) : Option String :=
  match x.get ("type") with
  | some v => if v.truthy then some v.toJSString else none
  | none => none

/-- The resolution `pkgJson.license || pkgJson.licenses` at the top of
`getLicense`. -/
def licResolved (j : Json) : Option Json :=
  if truthyOpt (j.get ("license")) then j.get ("license") else j.get ("licenses")

/-- From `LicenseChecker.getLicense`: resolve `license || licenses`; a falsy
result means no license (the literal "private" for private packages); a
string is returned as is; an empty legacy array yields null, a non-empty one
collects the truthy `type`s and either returns the single collected entry or
joins them with OR in parentheses; a legacy object yields `type || null`. -/
def getLicense (j : Json) : Option String :=
  match licResolved j with
  | none => if truthyOpt (j.get ("private")) then some ("private") else none
  | some v =>
    if v.truthy = false then
      (if truthyOpt (j.get ("private")) then some ("private") else none)
    else
      match v with
      | .str s => some s
      | .arr xs =>
        if xs.length = 0 then none
        else
          let types := xs.filterMap licenseEntryType
          if types.length = 1 then types.head?
          else some ("(" ++ String.intercalate (" OR ") types ++ ")")
      | other => licenseEntryType other

/-- Events observable from a traversal run: metadata fetches (each call of
`getPackageJson`, covering both the registry fetch and the `file:` local
read), non-green-license findings, fetch/validation error events, and the
terminal end event.  The `package.json` file-path events and all console
output are log-only and elided. -/
inductive Event where
  | fetch (packageName versionSpec : String) : Event
  | nonGreen (packageName version : String) (licenseName : Option String)
      (parentPackages : List String) : Event
  | fetchError (packageName versionSpec : String) (parentPackages : List String) : Event
  | endEvent : Event
deriving DecidableEq, Repr

/-- Exceptions that can escape `checkPackageJson` itself: the
`ensurePackageJson` schema throw, and the TypeError raised when a dependency
map binds a non-string version spec (every other exception is caught inside
a nested `checkLicenses`). -/
inductive Exc where
  | invalidManifest : Exc
  | depTypeError : Exc
deriving DecidableEq, Repr

/-- The three per-instance mutable sets of `LicenseChecker`: processed
resolved keys, failed request specs, and the local-package registry. -/
structure CheckerState where
  processedPackages : List String
  failedPackages : List String
  localPackages : List String
deriving DecidableEq, Repr

/-- `Set.add`: insert without duplication. -/
def addToSet (xs : List String) (x : String) : List String :=
  if xs.contains x then xs else x :: xs

/-- The tilde/caret strip `versionSpec.replace(/^[~^]/, '')`: remove one
leading `~` or `^`. -/
def stripTildeCaret (s : String) : String :=
  match s.data with
  | c :: rest => if c = '~' || c = '^' then String.mk rest else s
  | [] => s

/-- The checker's fixed run context: the metadata-source oracle standing for
`getPackageJson` (package name, requested version spec, optional local
directory; `none` means the fetch/read throws), the dev-dependency option,
and the classification rule set built by `init`. -/
structure Ctx where
  registry : String → String → Option String → Option Json
  dev : Bool
  rules : Rules

/-- The four mutually recursive procedures of the traversal, as one call
type: `checkLicenses`, `checkPackageJson`, `checkLicensesForDeps`, and the
iteration over a dependency map's entries. -/
inductive Call where
  | licenses (packageName versionSpec : String) (localDirectory : Option String)
      (parents : List String) : Call
  | pkgJson (json : Json) (packageName : Option Json) (localDirectory : Option String)
      (parents : List String) : Call
  | deps (deps : Option Json) (localDirectory : Option String)
      (parents : List String) : Call
  | depsLoop (entries : List (String × Json)) (localDirectory : Option String)
      (parents : List String) : Call

/-- Result of one traversal call: the final state, the emitted events in
order, the escaping exception if any, and (for `pkgJson` calls) the manifest
value as it stands on return — this records the in-place `json.version`
assignment. -/
structure Out where
  state : CheckerState
  events : List Event
  exc : Option Exc
  json : Json

/-- A result with no events, no exception and no manifest. -/
def noOut (st : CheckerState) : Out :=
  { state := st, events := [], exc := none, json := .null }

/-- The manifest argument of a call (used by the fuel-exhaustion base case so
that truncation returns the manifest unchanged). -/
def callJson : Call → Json
  | .pkgJson j _ _ _ => j
  | _ => .null

/-- The effective package name `(packageName || json.name || 'undefined')`
computed at the top of `checkPackageJson`. -/
def effectiveName (packageName : Option Json) (json : Json) : String :=
  match (if truthyOpt packageName then packageName else json.get ("name")) with
  | some v => if v.truthy then v.toJSString else "undefined"
  | none => "undefined"

/-- The own enumerable entries `Object.keys(deps)` pairs with their values:
object fields, array indices, or string character positions; other
primitives enumerate nothing. -/
def depEntries : Json → List (String × Json)
  | .obj fs => fs
  | .arr xs => xs.enum.map (fun p => (toString p.1, p.2))
  | .str s => s.toList.enum.map (fun p => (toString p.1, Json.str p.2.toString))
  | _ => []

/-- Result of the fuel-exhaustion base case: a silent no-op that returns the
manifest unchanged (never reached by the concrete runs below). -/
def runBase (st : CheckerState) (c : Call) : Out :=
  { state := st, events := [], exc := none, json := callJson c }

/-- Body of `checkLicenses`, parameterized by the recursive interpreter
`recur`: return if the request spec already failed; strip one `~`/`^` and
return if the package is a registered local package; otherwise fetch via
`getPackageJson` — on a throw, record the spec as failed and emit an error
event carrying the requested spec and the current parents; on success run
`checkPackageJson`, catching any exception it throws the same way. -/
def checkLicensesBody (ctx : Ctx) (recur : CheckerState → Call → Out)
    (st : CheckerState) (packageName versionSpec : String)
    (localDirectory : Option String) (parents : List String) : Out :=
  let spec := packageName ++ "@" ++ versionSpec
  if st.failedPackages.contains spec then noOut st
  else
    let version := stripTildeCaret versionSpec
    if st.localPackages.contains (packageName ++ "@" ++ version) then noOut st
    else
      match ctx.registry packageName versionSpec localDirectory with
      | none =>
        { state := { st with failedPackages := addToSet st.failedPackages spec }
          events := [.fetch packageName versionSpec,
                     .fetchError packageName versionSpec parents]
          exc := none, json := .null }
      | some json =>
        let r := recur st (.pkgJson json (some (.str packageName)) localDirectory parents)
        match r.exc with
        | none =>
          { state := r.state, events := .fetch packageName versionSpec :: r.events
            exc := none, json := .null }
        | some _ =>
          { state := { r.state with failedPackages := addToSet r.state.failedPackages spec }
            events := .fetch packageName versionSpec ::
              (r.events ++ [.fetchError packageName versionSpec parents])
            exc := none, json := .null }

/-- The classification continuation shared by both validation outcomes of
`checkPackageJson`, taking the manifest `json'` as it stands after the
allowlist defaulting: return if the resolved `name@version` was already
processed, else mark it processed; for non-allowlisted packages classify the
license and emit a non-green finding if it fails; then recurse into
`dependencies` (and `devDependencies` when the dev option is set) with the
parents extended by this resolved key. -/
def classifyTail (ctx : Ctx) (recur : CheckerState → Call → Out) (st : CheckerState)
    (json' : Json) (effName : String) (isAllow : Bool)
    (localDirectory : Option String) (parents : List String) : Out :=
  let pkgVersion := json'.get ("version")
  let packageAndVersion := effName ++ "@" ++ jsDisplay pkgVersion
  if st.processedPackages.contains packageAndVersion then
    { state := st, events := [], exc := none, json := json' }
  else
    let st1 := { st with
      processedPackages := addToSet st.processedPackages packageAndVersion }
    let evs0 :=
      if isAllow then []
      else
        let license := getLicense json'
        if isGreenLicense ctx.rules license then []
        else [Event.nonGreen effName (jsTruthyDisplay pkgVersion) license parents]
    let parents' := parents ++ [packageAndVersion]
    let r1 := recur st1 (.deps (json'.get ("dependencies")) localDirectory parents')
    match r1.exc with
    | some e =>
      { state := r1.state, events := evs0 ++ r1.events, exc := some e, json := json' }
    | none =>
      if ctx.dev then
        let r2 := recur r1.state (.deps (json'.get ("devDependencies")) localDirectory parents')
        { state := r2.state, events := evs0 ++ r1.events ++ r2.events
          exc := r2.exc, json := json' }
      else
        { state := r1.state, events := evs0 ++ r1.events, exc := none, json := json' }

/-- Body of `checkPackageJson`: compute the effective name; an allowlisted
package bypasses validation but has its `version` overwritten with "0.0.0"
unless it is already a valid semver; everything else must pass
`ensurePackageJson` (the throw is the `invalidManifest` exception); both
paths continue with the shared classification tail. -/
def checkPackageJsonBody (ctx : Ctx) (recur : CheckerState → Call → Out)
    (st : CheckerState) (json : Json) (packageName : Option Json)
    (localDirectory : Option String) (parents : List String) : Out :=
  let effName := effectiveName packageName json
  let isAllow := isPackageAllowlisted ctx.rules effName
  if !isAllow && !(isPackageJson json) then
    { state := st, events := [], exc := some .invalidManifest, json := json }
  else
    let json' :=
      if isAllow then
        (if semverValidField (json.get ("version")) then json
         else json.set ("version") (.str "0.0.0"))
      else json
    classifyTail ctx recur st json' effName isAllow localDirectory parents

/-- Body of `checkLicensesForDeps`: a falsy dependency value means nothing to
do; otherwise iterate its enumerable entries. -/
def checkLicensesForDepsBody (recur : CheckerState → Call → Out)
    (st : CheckerState) (d : Option Json) (localDirectory : Option String)
    (parents : List String) : Out :=
  match d with
  | none => noOut st
  | some v =>
    if v.truthy = false then noOut st
    else recur st (.depsLoop (depEntries v) localDirectory parents)

/-- Body of the `for` loop of `checkLicensesForDeps`: call `checkLicenses`
for each entry in order; a non-string version spec raises the TypeError that
`versionSpec.replace` would throw, abandoning the rest of the loop. -/
def depsLoopBody (recur : CheckerState → Call → Out) (st : CheckerState)
    (entries : List (String × Json)) (localDirectory : Option String)
    (parents : List String) : Out :=
  match entries with
  | [] => noOut st
  | (pkg, depVersion) :: rest =>
    match depVersion with
    | .str s =>
      let r1 := recur st (.licenses pkg s localDirectory parents)
      let r2 := recur r1.state (.depsLoop rest localDirectory parents)
      { state := r2.state, events := r1.events ++ r2.events, exc := r2.exc, json := .null }
    | _ => { state := st, events := [], exc := some .depTypeError, json := .null }

/-- The traversal interpreter: fuel-indexed dispatch of the four mutually
recursive procedure bodies, each recursing through the interpreter one fuel
level down. -/
def run (ctx : Ctx) : Nat → CheckerState → Call → Out
  | 0, st, c => runBase st c
  | fuel + 1, st, c =>
    match c with
    | .licenses packageName versionSpec localDirectory parents =>
      checkLicensesBody ctx (run ctx fuel) st packageName versionSpec localDirectory parents
    | .pkgJson json packageName localDirectory parents =>
      checkPackageJsonBody ctx (run ctx fuel) st json packageName localDirectory parents
    | .deps d localDirectory parents =>
      checkLicensesForDepsBody (run ctx fuel) st d localDirectory parents
    | .depsLoop entries localDirectory parents =>
      depsLoopBody (run ctx fuel) st entries localDirectory parents
termination_by structural fuel => fuel

/-- Source-named wrapper for the `checkLicenses` procedure. -/
def checkLicenses (ctx : Ctx) (fuel : Nat) (st : CheckerState)
    (packageName versionSpec : String) (localDirectory : Option String)
    (parents : List String) : CheckerState × List Event :=
  let r := run ctx fuel st (.licenses packageName versionSpec localDirectory parents)
  (r.state, r.events)

/-- Source-named wrapper for the `checkPackageJson` procedure. -/
def checkPackageJson (ctx : Ctx) (fuel : Nat) (st : CheckerState) (json : Json)
    (packageName : Option Json) (localDirectory : Option String)
    (parents : List String) : Out :=
  run ctx fuel st (.pkgJson json packageName localDirectory parents)

/-- Source-named wrapper for the `checkLicensesForDeps` procedure. -/
def checkLicensesForDeps (ctx : Ctx) (fuel : Nat) (st : CheckerState)
    (deps : Option Json) (localDirectory : Option String)
    (parents : List String) : Out :=
  run ctx fuel st (.deps deps localDirectory parents)

/-- The state part of `LicenseChecker.init`: `processedPackages.clear()` and
`failedPackages.clear()`.  Note that `localPackages` is not touched (rule-set
construction from configuration is `initRules` above). -/
def initState (st : CheckerState) : CheckerState :=
  { st with processedPackages := [], failedPackages := [] }

/-- From `checkPackageJsonContent`: parse the content (a parse failure is the
`none` input) and run `checkPackageJson` on it, passing `json.name`;
any exception is caught and emitted as an error event carrying
`json?.name || '(unknown package)'` and `json?.version || '(unknown
version)'`. -/
def checkPackageJsonContent (ctx : Ctx) (fuel : Nat) (st : CheckerState)
    (content : Option Json) (localDirectory : Option String) :
    CheckerState × List Event :=
  match content with
  | none => (st, [.fetchError ("(unknown package)") ("(unknown version)") []])
  | some json =>
    let r := run ctx fuel st (.pkgJson json (json.get ("name")) localDirectory [])
    match r.exc with
    | none => (r.state, r.events)
    | some _ =>
      (r.state, r.events ++
        [.fetchError (jsOrDefault (json.get ("name")) ("(unknown package)"))
          (jsOrDefault (json.get ("version")) ("(unknown version)")) []])

/-- The first loop of `checkLocalDirectory`: register every discovered
manifest with truthy `name` and `version` into the local-package registry.
The per-file `JSON.parse` there is unguarded, so an unparseable file (a
`none` entry) aborts the whole run: the Bool result records whether the loop
completed. -/
def registerLocalPackages : CheckerState → List (Option Json) → CheckerState × Bool
  | st, [] => (st, true)
  | st, none :: _ => (st, false)
  | st, some j :: rest =>
    let key := jsDisplay (j.get ("name")) ++ "@" ++ jsDisplay (j.get ("version"))
    let st' :=
      if j.truthy && truthyOpt (j.get ("name")) && truthyOpt (j.get ("version")) then
        { st with localPackages := addToSet st.localPackages key }
      else st
    registerLocalPackages st' rest

/-- The second loop shared by `checkLocalDirectory` and `checkGitHubPR`:
check each manifest's content in order (each paired with the directory its
`file:` links resolve against). -/
def contentLoop (ctx : Ctx) (fuel : Nat) :
    CheckerState → List (Option Json × Option String) → CheckerState × List Event
  | st, [] => (st, [])
  | st, (c, ld) :: rest =>
    let r := checkPackageJsonContent ctx fuel st c ld
    let r2 := contentLoop ctx fuel r.1 rest
    (r2.1, r.2 ++ r2.2)

/-- Entry point `checkLocalDirectory`: reset per-run state via `init`,
pre-register local packages, then check every discovered manifest and emit
the end event.  The input is the list of discovered package.json contents
(top level first), each with its directory; the Bool result records whether
the run completed (false = the unguarded registration parse threw). -/
def checkLocalDirectory (ctx : Ctx) (fuel : Nat) (st : CheckerState)
    (files : List (Option Json × Option String)) :
    CheckerState × List Event × Bool :=
  let st0 := initState st
  let reg := registerLocalPackages st0 (files.map Prod.fst)
  if reg.2 then
    let r := contentLoop ctx fuel reg.1 files
    (r.1, r.2 ++ [.endEvent], true)
  else (reg.1, [], false)

/-- Entry point `checkRemotePackage` after the package-spec parse: reset
per-run state via `init`, walk the single synthetic edge, emit the end
event. -/
def checkRemotePackage (ctx : Ctx) (fuel : Nat) (st : CheckerState)
    (packageName fetchSpec : String) : CheckerState × List Event :=
  let st0 := initState st
  let r := run ctx fuel st0 (.licenses packageName fetchSpec none [])
  (r.state, r.events ++ [.endEvent])

/-- Entry point `checkGitHubPR`: reset per-run state via `init`, check every
manifest fetched from the repository snapshot (no local directory), emit the
end event. -/
def checkGitHubPR (ctx : Ctx) (fuel : Nat) (st : CheckerState)
    (files : List (Option Json)) : CheckerState × List Event :=
  let st0 := initState st
  let r := contentLoop ctx fuel st0 (files.map (fun c => (c, none)))
  (r.1, r.2 ++ [.endEvent])

/-! The PR-commit retrieval retry loop (`GitHubRepository.getPRCommits` in
`src/github.ts`). -/

/-- The fields of the pulls-API response that `getPRCommits` reads.
`mergeable` distinguishes an absent field (`none`), the explicit JSON null
(`some none`, the host is still computing mergeability) and a boolean
(`some (some b)`); the commit SHAs are absent or a string. -/
structure PRResponse where
  mergeable : Option (Option Bool)
  mergeCommitSha : Option String
  headSha : Option String

/-- Result of a successful `getPRCommits`. -/
structure PRCommits where
  mergeCommitSha : String
  headCommitSha : String
deriving DecidableEq, Repr

/-- `MAX_PR_COMMIT_RETRIES` from `src/github.ts`. -/
def MAX_PR_COMMIT_RETRIES : Nat := 10

/-- The recursion of `getPRCommits`, with the GET responses given as a
function of the attempt number and the number of GET requests returned
alongside the result.  A `mergeable` of exactly null retries after the fixed
delay with `attemptCount + 1` unless the counter already exceeds the cap, in
which case the "Tried N times" error is thrown; a falsy `mergeable` (absent
or false) throws "PR is not mergeable" immediately; a mergeable response
must carry truthy merge-commit and head-commit SHAs.  The extra fuel
argument only makes the recursion structural; the cap bounds the recursion
at `MAX_PR_COMMIT_RETRIES + 2` steps from attempt 1, so the fuel used below
is never exhausted. -/
def getPRCommitsAux (responses : Nat → PRResponse) :
    Nat → Nat → Except String PRCommits × Nat
  | 0, _ => (.error ("out of fuel"), 0)
  | fuel + 1, attemptCount =>
    let answer := responses attemptCount
    match answer.mergeable with
    | some none =>
      if MAX_PR_COMMIT_RETRIES < attemptCount then
        (.error ("Tried " ++ toString attemptCount ++
          " times but the mergeable field is not set. Giving up"), 1)
      else
        let r := getPRCommitsAux responses fuel (attemptCount + 1)
        (r.1, r.2 + 1)
    | some (some true) =>
      (match answer.mergeCommitSha with
       | some m =>
         if m = "" then (.error ("Merge commit SHA is not found"), 1)
         else
           (match answer.headSha with
            | some h =>
              if h = "" then (.error ("HEAD commit SHA is not found"), 1)
              else (.ok { mergeCommitSha := m, headCommitSha := h }, 1)
            | none => (.error ("HEAD commit SHA is not found"), 1))
       | none => (.error ("Merge commit SHA is not found"), 1))
    | _ => (.error ("PR is not mergeable"), 1)

/-- `getPRCommits` called as the CLI does, with the default `attemptCount`
of 1. -/
def getPRCommits (responses : Nat → PRResponse) : Except String PRCommits × Nat :=
  getPRCommitsAux responses (MAX_PR_COMMIT_RETRIES + 2) 1

/-! Trace predicates and invariant notions used by the theorems. -/

/-- Whether an event is a metadata fetch of the given package name. -/
def isFetchOfName (n : String) (e : Event) : Bool :=
  match e with
  | .fetch pn _ => pn == n
  | _ => false

/-- Whether an event is a metadata fetch whose request spec
`packageName@versionSpec` equals the given string. -/
def isFetchSpec (s : String) (e : Event) : Bool :=
  match e with
  | .fetch pn vs => (pn ++ "@" ++ vs) == s
  | _ => false

/-- Whether an event is a non-green finding whose resolved key
`packageName@version` equals the given string. -/
def isFindingKey (k : String) (e : Event) : Bool :=
  match e with
  | .nonGreen pn v _ _ => (pn ++ "@" ++ v) == k
  | _ => false

/-- Whether an event is a non-green finding for the given package name. -/
def isFindingOfName (n : String) (e : Event) : Bool :=
  match e with
  | .nonGreen pn _ _ _ => pn == n
  | _ => false

/-- A manifest whose version field displays identically under plain template
coercion and under the `|| 'undefined'` fallback (true whenever the version
is absent or truthy, in particular for every nonempty version string). -/
def DisplayOK (j : Json) : Prop :=
  jsDisplay (j.get ("version")) = jsTruthyDisplay (j.get ("version"))

/-- A metadata source all of whose manifests are `DisplayOK`. -/
def RegistryDisplayOK (ctx : Ctx) : Prop :=
  ∀ pn vs ld j, ctx.registry pn vs ld = some j → DisplayOK j

/-- The guarded-emission invariant shared by the dedup arguments: over one
traversal step from `st` to `st'` emitting `evts`, membership in the
monitored set only grows, an event matching `P` cannot occur at all if the
set already contained the key, at most one matching event occurs in total,
and once one occurred the key is in the final set. -/
def GuardInv (P : Event → Bool) (inSet : CheckerState → Bool)
    (st : CheckerState) (evts : List Event) (st' : CheckerState) : Prop :=
  (inSet st = true → inSet st' = true) ∧
  (evts.countP P + (if inSet st then 1 else 0) ≤ 1) ∧
  (0 < evts.countP P → inSet st' = true)

/-! Concrete fixtures used by the counterexamples and witnesses. -/

/-- The empty checker state a fresh `LicenseChecker` instance starts with. -/
def emptyState : CheckerState :=
  { processedPackages := [], failedPackages := [], localPackages := [] }

/-- A small rule set treating only MIT as green, with no package
allowlist. -/
def mitRules : Rules := initRules ["MIT"] []

/-- Manifest of the diamond root: depends on `a` and `b`. -/
def diamondRoot : Json :=
  .obj [("name", .str "root"), ("version", .str "1.0.0"), ("license", .str "MIT"),
        ("dependencies", .obj [("a", .str "^1.0.0"), ("b", .str "^1.0.0")])]

/-- Manifest of diamond node `a`: depends on `c@^1.0.0`. -/
def diamondA : Json :=
  .obj [("name", .str "a"), ("version", .str "1.0.0"), ("license", .str "MIT"),
        ("dependencies", .obj [("c", .str "^1.0.0")])]

/-- Manifest of diamond node `b`: also depends on `c@^1.0.0`. -/
def diamondB : Json :=
  .obj [("name", .str "b"), ("version", .str "1.0.0"), ("license", .str "MIT"),
        ("dependencies", .obj [("c", .str "^1.0.0")])]

/-- Manifest of the shared diamond node `c`, resolved at version 1.0.2 with
a non-green license. -/
def diamondC : Json :=
  .obj [("name", .str "c"), ("version", .str "1.0.2"), ("license", .str "EVIL")]

/-- Metadata source for the diamond graph. -/
def diamondRegistry (pn : String) (_vs : String) (_ld : Option String) : Option Json :=
  if pn = "root" then some diamondRoot
  else if pn = "a" then some diamondA
  else if pn = "b" then some diamondB
  else if pn = "c" then some diamondC
  else none

/-- Run context for the diamond graph. -/
def diamondCtx : Ctx :=
  { registry := diamondRegistry, dev := false, rules := mitRules }

/-- The event trace of checking the diamond root as a remote package. -/
def diamondTrace : List Event :=
  (checkRemotePackage diamondCtx 20 emptyState ("root") ("latest")).2

/-- Root manifest for the fetch-failure run: one dependency whose fetch
fails, followed by one that succeeds. -/
def failRoot : Json :=
  .obj [("name", .str "top"), ("version", .str "1.0.0"), ("license", .str "MIT"),
        ("dependencies", .obj [("bad", .str "^2.0.0"), ("good", .str "^3.0.0")])]

/-- Manifest of the surviving dependency in the fetch-failure run. -/
def goodDep : Json :=
  .obj [("name", .str "good"), ("version", .str "3.0.1"), ("license", .str "MIT")]

/-- Metadata source for the fetch-failure run: `bad` always throws. -/
def failRegistry (pn : String) (_vs : String) (_ld : Option String) : Option Json :=
  if pn = "top" then some failRoot
  else if pn = "good" then some goodDep
  else none

/-- Run context for the fetch-failure run. -/
def failCtx : Ctx :=
  { registry := failRegistry, dev := false, rules := mitRules }

/-- A local monorepo manifest used to populate the local-package registry. -/
def localMember : Json :=
  .obj [("name", .str "m"), ("version", .str "1.0.0"), ("license", .str "MIT")]

/-- Run context whose metadata source always throws (the cross-run state
counterexample never needs a successful fetch). -/
def offlineCtx : Ctx :=
  { registry := fun _ _ _ => none, dev := false, rules := mitRules }

/-- Rules allowlisting the package name "hello", treating only MIT as
green. -/
def helloAllowRules : Rules := initRules ["MIT"] ["hello"]

/-- Run context with the "hello" package allowlisted. -/
def helloAllowCtx : Ctx :=
  { registry := fun _ _ _ => none, dev := false, rules := helloAllowRules }

/-- An allowlisted package's manifest with a malformed `licenses` field and
an invalid version. -/
def helloMalformed : Json :=
  .obj [("name", .str "hello"), ("version", .str "bogus"),
        ("licenses", .arr [.num 5])]

/-- A private manifest whose dependency map binds a key to a non-string. -/
def privateBadDeps : Json :=
  .obj [("private", .bool true), ("dependencies", .obj [("a", .num 1)])]

/-- PR responses whose `mergeable` field is the explicit null forever. -/
def nullResponses : Nat → PRResponse :=
  fun _ => { mergeable := some none, mergeCommitSha := none, headSha := none }

/-- PR responses that stay null for the first three attempts and then
resolve mergeable with both SHAs present. -/
def lateResponses : Nat → PRResponse :=
  fun n =>
    if n ≤ 3 then { mergeable := some none, mergeCommitSha := none, headSha := none }
    else { mergeable := some (some true), mergeCommitSha := some "m", headSha := some "h" }

/-- PR responses that are determinately non-mergeable from the start. -/
def notMergeableResponses : Nat → PRResponse :=
  fun _ => { mergeable := some (some false), mergeCommitSha := some "m", headSha := some "h" }

/-- A state whose local-package registry knows `p@1.2.3`. -/
def stateWithLocalP : CheckerState :=
  { processedPackages := [], failedPackages := [], localPackages := ["p@1.2.3"] }

/-- Whether an event is consistent with the allowlist contract: a non-green
finding must name a non-allowlisted package (other events are
unconstrained). -/
def eventOKb (ctx : Ctx) (e : Event) : Bool :=
  match e with
  | .nonGreen n _ _ _ => !(isPackageAllowlisted ctx.rules n)
  | _ => true

/-- The display-consistency side condition threaded through the finding-dedup
invariant: a `pkgJson` call carries a `DisplayOK` manifest, every other call
carries none. -/
def CallDisplayOK : Call → Prop
  | .pkgJson json _ _ _ => DisplayOK json
  | _ => True

/-!  Theorems.  Each claim of the specification is settled by exactly one
theorem below (with a witness theorem where the statement carries
hypotheses, and a counterexample theorem where the claim as stated fails on
the code). -/

/-- C3: a dependency edge whose package, with one leading tilde/caret
stripped from the requested spec, is registered as a local package is
skipped before the metadata fetch: the checker state is unchanged and no
event — in particular no fetch — is produced for that edge. -/
theorem c3_local_short_circuit (ctx : Ctx) (fuel : Nat) (st : CheckerState)
    (packageName versionSpec : String) (localDirectory : Option String)
    (parents : List String)
    (h : packageName ++ "@" ++ stripTildeCaret versionSpec ∈ st.localPackages) :
    checkLicenses ctx fuel st packageName versionSpec localDirectory parents = (st, []) := by
  cases fuel with
  | zero => rfl
  | succ fuel =>
    by_cases hf : packageName ++ "@" ++ versionSpec ∈ st.failedPackages
    · simp [checkLicenses, run, checkLicensesBody, noOut, hf]
    · simp [checkLicenses, run, checkLicensesBody, noOut, hf, h]

/-- C3 witness at a concrete edge `p@^1.2.3` against a registry that knows
`p@1.2.3`. -/
theorem c3_local_short_circuit_witness :
    "p" ++ "@" ++ stripTildeCaret ("^1.2.3") ∈ stateWithLocalP.localPackages ∧
    checkLicenses offlineCtx 5 stateWithLocalP ("p") ("^1.2.3") none [] = (stateWithLocalP, []) :=
  ⟨by decide, c3_local_short_circuit offlineCtx 5 stateWithLocalP ("p") ("^1.2.3") none [] (by decide)⟩

/-- C5: under the default rule set MIT is green and an unknown license or a
missing license is not; a rule set built from a raw allowlist containing
"private" classifies "private" as green. -/
theorem c5_classification_determinism :
    isGreenLicense defaultRules (some ("MIT")) = true ∧
    isGreenLicense defaultRules (some ("EVIL-MADE-UP-LICENSE")) = false ∧
    isGreenLicense defaultRules none = false ∧
    (initRules ["private"] []).allowlistedLicenses = ["private"] ∧
    isGreenLicense (initRules ["private"] []) (some ("private")) = true := by
  refine ⟨by decide, by decide, rfl, by decide, by decide⟩

/-- C7 counterexample: a legacy `licenses` array with two entries of the
same type has exactly one distinct non-empty type, yet `getLicense` returns
"(MIT OR MIT)", not the bare "MIT" the claim predicts; and a non-empty
array yielding no types returns "()", not the null the claim predicts. -/
theorem c7_legacy_array_cex :
    getLicense (Json.obj [("licenses",
        Json.arr [Json.obj [("type", Json.str ("MIT"))],
                  Json.obj [("type", Json.str ("MIT"))]])]) = some ("(MIT OR MIT)") ∧
    some ("(MIT OR MIT)") ≠ (some ("MIT") : Option String) ∧
    getLicense (Json.obj [("licenses", Json.arr [Json.obj [("type", Json.str (""))]])]) =
      some ("()") ∧
    some ("()") ≠ (none : Option String) := by
  refine ⟨rfl, by decide, rfl, by decide⟩

/-- C7 amended: when the resolved license field is a legacy array, a
literally empty array yields null; if the collected truthy `type` list has
exactly one element it is returned bare (duplicates are NOT collapsed —
the count is of entries, not distinct types); in every other case —
including a non-empty array yielding no types, which gives "()" — the
collected types are joined with " OR " inside parentheses. -/
theorem c7_legacy_array_amended (j : Json) (xs : List Json)
    (h : licResolved j = some (Json.arr xs)) :
    (xs = [] → getLicense j = none) ∧
    (∀ t, xs.filterMap licenseEntryType = [t] → getLicense j = some t) ∧
    (xs ≠ [] → (xs.filterMap licenseEntryType).length ≠ 1 →
      getLicense j =
        some ("(" ++ String.intercalate (" OR ") (xs.filterMap licenseEntryType) ++ ")")) := by
  have base : getLicense j =
      (if xs.length = 0 then none
       else if (xs.filterMap licenseEntryType).length = 1 then
         (xs.filterMap licenseEntryType).head?
       else some ("(" ++ String.intercalate (" OR ") (xs.filterMap licenseEntryType) ++ ")")) := by
    simp [getLicense, h, Json.truthy]
  refine ⟨?_, ?_, ?_⟩
  · intro hxs
    subst hxs
    simpa using base
  · intro t ht
    have hlen0 : ¬ (xs.length = 0) := by
      intro hz
      rw [List.length_eq_zero] at hz
      subst hz
      simp at ht
    rw [base, if_neg hlen0, ht]
    simp
  · intro hne hlen
    have hlen0 : ¬ (xs.length = 0) := fun hz => hne (List.length_eq_zero.mp hz)
    rw [base, if_neg hlen0, if_neg hlen]

/-- C9 counterexample: a private manifest whose dependency map binds the key
"a" to the number 1 — a non-string — is nevertheless accepted by
`isPackageJson`/`ensurePackageJson`, because `private: true` short-circuits
the whole shape check; the claim predicts a failure for every manifest with
such a dependency map. -/
theorem c9_private_bad_deps_cex :
    isPackageJson privateBadDeps = true ∧
    ensurePackageJson privateBadDeps = Except.ok privateBadDeps := ⟨rfl, rfl⟩

/-- C9 amended: a manifest with `private === true` is accepted outright,
whatever its other fields (including dependency maps with non-string
values); for every non-private manifest, a non-string `name` or `version`,
or a dependency/devDependency map binding some key to a non-string value,
makes validation fail. -/
theorem c9_manifest_validation (j : Json) :
    (j.get ("private") = some (Json.bool true) →
      isPackageJson j = true ∧ ensurePackageJson j = Except.ok j) ∧
    (j.get ("private") ≠ some (Json.bool true) →
      ((isStrOptField (j.get ("name")) = false ∨ isStrOptField (j.get ("version")) = false) →
        ensurePackageJson j = Except.error ("Invalid package.json")) ∧
      (∀ fs, j.get ("dependencies") = some (Json.obj fs) →
        fs.all (fun p => p.2.isStr) = false →
        ensurePackageJson j = Except.error ("Invalid package.json")) ∧
      (∀ fs, j.get ("devDependencies") = some (Json.obj fs) →
        fs.all (fun p => p.2.isStr) = false →
        ensurePackageJson j = Except.error ("Invalid package.json"))) := by
  constructor
  · intro hp
    have : isPackageJson j = true := by simp [isPackageJson, hp]
    exact ⟨this, by simp [ensurePackageJson, this]⟩
  · intro hp
    have hpc : (match j.get ("private") with
        | some (.bool true) => true
        | _ => false) = false := by
      cases hv : j.get ("private") with
      | none => rfl
      | some v =>
        cases v with
        | bool b =>
          cases b with
          | true => exact absurd hv hp
          | false => rfl
        | null => rfl
        | num n => rfl
        | str s => rfl
        | arr xs => rfl
        | obj fs => rfl
    refine ⟨?_, ?_, ?_⟩
    · intro hname
      have : isPackageJson j = false := by
        rcases hname with hn | hn <;> simp [isPackageJson, hpc, hn]
      simp [ensurePackageJson, this]
    · intro fs hdep hbad
      have : isPackageJson j = false := by
        simp [isPackageJson, hpc, hdep, optField, isDependencies, hbad]
      simp [ensurePackageJson, this]
    · intro fs hdep hbad
      have : isPackageJson j = false := by
        simp [isPackageJson, hpc, hdep, optField, isDependencies, hbad]
      simp [ensurePackageJson, this]

/-- C9 witness: the private short-circuit at a concrete private manifest
without name or version, and the failure clauses at concrete malformed
manifests. -/
theorem c9_manifest_validation_witness :
    ensurePackageJson (Json.obj [("private", Json.bool true)]) =
      Except.ok (Json.obj [("private", Json.bool true)]) ∧
    ensurePackageJson (Json.obj [("name", Json.str ("x")), ("version", Json.num 3)]) =
      Except.error ("Invalid package.json") ∧
    ensurePackageJson (Json.obj [("name", Json.str ("x")), ("version", Json.str ("1.0.0")),
        ("dependencies", Json.obj [("a", Json.num 1)])]) =
      Except.error ("Invalid package.json") :=
  ⟨((c9_manifest_validation (Json.obj [("private", Json.bool true)])).1 rfl).2,
   ((c9_manifest_validation (Json.obj [("name", Json.str ("x")), ("version", Json.num 3)])).2
      (fun hcon => Option.noConfusion hcon)).1 (Or.inr rfl),
   (((c9_manifest_validation (Json.obj [("name", Json.str ("x")),
        ("version", Json.str ("1.0.0")),
        ("dependencies", Json.obj [("a", Json.num 1)])])).2
      (fun hcon => Option.noConfusion hcon)).2).1 [("a", Json.num 1)] rfl rfl⟩

/-- C7 amended witness at the concrete duplicated-type array. -/
theorem c7_legacy_array_amended_witness :
    getLicense (Json.obj [("licenses",
        Json.arr [Json.obj [("type", Json.str ("MIT"))],
                  Json.obj [("type", Json.str ("MIT"))]])]) = some ("(MIT OR MIT)") :=
  (c7_legacy_array_amended
      (Json.obj [("licenses",
        Json.arr [Json.obj [("type", Json.str ("MIT"))],
                  Json.obj [("type", Json.str ("MIT"))]])])
      [Json.obj [("type", Json.str ("MIT"))], Json.obj [("type", Json.str ("MIT"))]]
      rfl).2.2 (List.cons_ne_nil _ _) (by decide)

/-- Auxiliary for C8: from any attempt number between 1 and 11, a response
stream that is forever indeterminate drives `getPRCommitsAux` into the
"Tried 11 times" failure, making one GET per remaining attempt. -/
theorem getPRCommitsAux_all_null (responses : Nat → PRResponse)
    (hnull : ∀ n, (responses n).mergeable = some none) :
    ∀ fuel a, 1 ≤ a → a ≤ 11 → a + fuel = 13 →
      getPRCommitsAux responses fuel a =
        (.error ("Tried 11 times but the mergeable field is not set. Giving up"), 12 - a) := by
  intro fuel
  induction fuel with
  | zero => intro a _ h2 h3; omega
  | succ f ih =>
    intro a h1 h2 h3
    simp only [getPRCommitsAux, hnull a]
    by_cases hc : MAX_PR_COMMIT_RETRIES < a
    · have ha : a = 11 := by
        simp [MAX_PR_COMMIT_RETRIES] at hc
        omega
      subst ha
      rw [if_pos hc]
      rfl
    · have ha : a ≤ 10 := by
        simp [MAX_PR_COMMIT_RETRIES] at hc
        omega
      rw [if_neg hc, ih (a + 1) (by omega) (by omega) (by omega)]
      simp only [Prod.mk.injEq, true_and]
      omega

/-- C8: a mergeability status that is forever indeterminate (the explicit
null) makes `getPRCommits` retry with an incremented attempt counter up to
the cap of 10 retries and then fail, having made exactly 11 GET requests,
with an error message reporting 11 attempts; a determinately non-mergeable
status (or an absent mergeable field) fails immediately after a single
request with no retry; and a status that resolves at a later attempt within
the cap succeeds, as shown for a stream that resolves at attempt 4. -/
theorem c8_pr_commit_retries :
    (∀ responses : Nat → PRResponse, (∀ n, (responses n).mergeable = some none) →
      getPRCommits responses =
        (.error ("Tried 11 times but the mergeable field is not set. Giving up"), 11)) ∧
    (∀ responses : Nat → PRResponse, (responses 1).mergeable = some (some false) →
      getPRCommits responses = (.error ("PR is not mergeable"), 1)) ∧
    getPRCommits lateResponses =
      (.ok { mergeCommitSha := "m", headCommitSha := "h" }, 4) := by
  refine ⟨?_, ?_, by rfl⟩
  · intro responses hnull
    have := getPRCommitsAux_all_null responses hnull 12 1 (by omega) (by omega) (by omega)
    simpa [getPRCommits, MAX_PR_COMMIT_RETRIES] using this
  · intro responses hno
    simp [getPRCommits, getPRCommitsAux, hno, MAX_PR_COMMIT_RETRIES]

/-- C8 witness: the theorem applied to the concrete forever-null and
immediately-non-mergeable response streams. -/
theorem c8_pr_commit_retries_witness :
    getPRCommits nullResponses =
      (.error ("Tried 11 times but the mergeable field is not set. Giving up"), 11) ∧
    getPRCommits notMergeableResponses = (.error ("PR is not mergeable"), 1) :=
  ⟨c8_pr_commit_retries.1 nullResponses (fun _ => rfl),
   c8_pr_commit_retries.2.1 notMergeableResponses rfl⟩

/-- Membership is preserved by `addToSet`. -/
theorem mem_addToSet_of_mem {xs : List String} {x : String} (y : String)
    (h : x ∈ xs) : x ∈ addToSet xs y := by
  unfold addToSet
  split
  · exact h
  · exact List.mem_cons_of_mem _ h

/-- The inserted element is a member of `addToSet`. -/
theorem mem_addToSet_self (xs : List String) (x : String) : x ∈ addToSet xs x := by
  unfold addToSet
  split
  · next h => simpa using h
  · exact List.mem_cons_self _ _

/-- Replacing a field makes it the looked-up value. -/
theorem lookupField_setField_self (fs : List (String × Json)) (k : String) (v : Json) :
    lookupField (setField fs k v) k = some v := by
  induction fs with
  | nil => simp [setField, lookupField]
  | cons p rest ih =>
    obtain ⟨k', v'⟩ := p
    by_cases h : k' = k
    · simp [setField, h, lookupField]
    · simp [setField, h, lookupField, ih]

/-- Replacing one field leaves every other lookup unchanged. -/
theorem lookupField_setField_ne (fs : List (String × Json)) (k k' : String)
    (v : Json) (h : k' ≠ k) :
    lookupField (setField fs k v) k' = lookupField fs k' := by
  have hne : ∀ hk : k = k', False := fun hk => h (Eq.symm hk)
  induction fs with
  | nil =>
    simp only [setField, lookupField]
    rw [if_neg hne]
  | cons p rest ih =>
    obtain ⟨k'', v''⟩ := p
    by_cases hk : k'' = k
    · subst hk
      simp only [setField, if_pos rfl, lookupField]
      rw [if_neg hne, if_neg hne]
    · simp [setField, hk, lookupField, ih]

/-- After `j.k = v`, reading `k` gives `v` on objects; on non-objects the
assignment was a no-op. -/
theorem Json.get_set_self (j : Json) (k : String) (v : Json) :
    (Json.set j k v).get k = some v ∨ Json.set j k v = j := by
  cases j <;> simp [Json.set, Json.get, lookupField_setField_self]

/-- After `j.k = v`, reading any other key is unchanged. -/
theorem Json.get_set_ne (j : Json) (k k' : String) (v : Json) (h : k' ≠ k) :
    (Json.set j k v).get k' = j.get k' := by
  cases j <;> simp [Json.set, Json.get, lookupField_setField_ne _ _ _ _ h]

/-- The trivial guarded-emission invariant over an empty step. -/
theorem GuardInv.nil (P : Event → Bool) (S : CheckerState → Bool) (st : CheckerState) :
    GuardInv P S st [] st := by
  refine ⟨fun h => h, ?_, ?_⟩
  · simp only [List.countP_nil]
    split <;> omega
  · simp

/-- The guarded-emission invariant composes over sequential steps. -/
theorem GuardInv.comp {P : Event → Bool} {S : CheckerState → Bool}
    {st st1 st2 : CheckerState} {e1 e2 : List Event}
    (h1 : GuardInv P S st e1 st1) (h2 : GuardInv P S st1 e2 st2) :
    GuardInv P S st (e1 ++ e2) st2 := by
  obtain ⟨m1, c1, f1⟩ := h1
  obtain ⟨m2, c2, f2⟩ := h2
  unfold GuardInv
  rw [List.countP_append]
  refine ⟨fun h => m2 (m1 h), ?_, ?_⟩
  · by_cases hs : S st = true
    · have hs1 : S st1 = true := m1 hs
      simp only [hs, if_true] at c1 ⊢
      simp only [hs1, if_true] at c2
      omega
    · simp only [hs, if_false] at c1 ⊢
      by_cases hp : 0 < e1.countP P
      · have hs1 := f1 hp
        simp only [hs1, if_true] at c2
        omega
      · by_cases hs1 : S st1 = true <;> simp only [hs1, if_true, if_false] at c2 <;> omega
  · intro hpos
    by_cases hp2 : 0 < e2.countP P
    · exact f2 hp2
    · exact m2 (f1 (by omega))

/-- A step that only touches the failed set (or nothing at all) and emits no
matching event preserves the guarded-emission invariant for the processed
set; stated for direct use: same processed membership on both ends, no
matching events. -/
theorem GuardInv.of_no_events {P : Event → Bool} {S : CheckerState → Bool}
    {st st' : CheckerState} {evts : List Event}
    (hmem : S st = true → S st' = true) (hev : evts.countP P = 0) :
    GuardInv P S st evts st' := by
  refine ⟨hmem, ?_, ?_⟩
  · rw [hev]
    split <;> omega
  · intro h
    omega

/-- No branch of the traversal ever modifies the local-package registry:
the registry a run finishes with is the one it started with. -/
theorem run_localPackages (ctx : Ctx) :
    ∀ fuel st c, (run ctx fuel st c).state.localPackages = st.localPackages := by
  intro fuel
  induction fuel with
  | zero => intro st c; rfl
  | succ fuel ih =>
    intro st c
    cases c with
    | licenses pn vs ld par =>
      show (checkLicensesBody ctx (run ctx fuel) st pn vs ld par).state.localPackages = _
      simp only [checkLicensesBody]
      repeat' split
      all_goals simp_all [noOut]
    | pkgJson json pn ld par =>
      show (checkPackageJsonBody ctx (run ctx fuel) st json pn ld par).state.localPackages = _
      simp only [checkPackageJsonBody, classifyTail]
      repeat' split
      all_goals simp_all [noOut]
    | deps d ld par =>
      show (checkLicensesForDepsBody (run ctx fuel) st d ld par).state.localPackages = _
      simp only [checkLicensesForDepsBody]
      repeat' split
      all_goals simp_all [noOut]
    | depsLoop entries ld par =>
      show (depsLoopBody (run ctx fuel) st entries ld par).state.localPackages = _
      simp only [depsLoopBody]
      repeat' split
      all_goals simp_all [noOut]

/-- C10 counterexample: for the allowlisted package "hello" with the
invalid declared version "bogus", `checkPackageJson` returns the manifest
with its version field overwritten by "0.0.0" — the manifest is mutated by
the traversal, against the claim that every field is unchanged. -/
theorem c10_manifest_mutated_cex :
    (checkPackageJson helloAllowCtx 5 emptyState helloMalformed
        (some (.str "hello")) none []).json.get ("version") = some (Json.str ("0.0.0")) ∧
    helloMalformed.get ("version") = some (Json.str ("bogus")) ∧
    Json.str ("0.0.0") ≠ Json.str ("bogus") := by
  refine ⟨rfl, rfl, ?_⟩
  intro h
  injection h with h'
  exact absurd h' (by decide)

/-- C10 amended: classification returns the manifest of a non-allowlisted
package completely unchanged; for an allowlisted package only the `version`
field can change (it is overwritten with "0.0.0" when missing or invalid) —
every key other than `version` reads the same before and after, for every
manifest. -/
theorem c10_manifest_mutation_amended :
    (∀ ctx fuel st json packageName localDirectory parents,
      isPackageAllowlisted ctx.rules (effectiveName packageName json) = false →
      (checkPackageJson ctx fuel st json packageName localDirectory parents).json = json) ∧
    (∀ ctx fuel st json packageName localDirectory parents key, key ≠ ("version" : String) →
      (checkPackageJson ctx fuel st json packageName localDirectory parents).json.get key =
        json.get key) := by
  constructor
  · intro ctx fuel st json pn ld par hallow
    cases fuel with
    | zero => rfl
    | succ fuel =>
      show (checkPackageJsonBody ctx (run ctx fuel) st json pn ld par).json = json
      simp only [checkPackageJsonBody, classifyTail, hallow, Bool.not_false,
        Bool.true_and, Bool.false_eq_true, if_false]
      repeat' split
      all_goals rfl
  · intro ctx fuel st json pn ld par key hkey
    cases fuel with
    | zero => rfl
    | succ fuel =>
      show (checkPackageJsonBody ctx (run ctx fuel) st json pn ld par).json.get key =
        json.get key
      simp only [checkPackageJsonBody, classifyTail]
      repeat' split
      all_goals first
        | rfl
        | exact Json.get_set_ne json _ key _ hkey

/-- C10 amended witness: the non-allowlisted manifest of package "c" is
returned untouched, and for the allowlisted "hello" manifest the "name"
field is unchanged even while its version is being defaulted. -/
theorem c10_manifest_mutation_amended_witness :
    (checkPackageJson diamondCtx 5 emptyState diamondC (some (.str "c")) none []).json =
      diamondC ∧
    (checkPackageJson helloAllowCtx 5 emptyState helloMalformed
        (some (.str "hello")) none []).json.get ("name") = helloMalformed.get ("name") :=
  ⟨c10_manifest_mutation_amended.1 diamondCtx 5 emptyState diamondC
      (some (.str "c")) none [] (by decide),
   c10_manifest_mutation_amended.2 helloAllowCtx 5 emptyState helloMalformed
      (some (.str "hello")) none [] ("name") (by decide)⟩

/-- `checkPackageJsonContent` never changes the local-package registry. -/
theorem checkPackageJsonContent_localPackages (ctx : Ctx) (fuel : Nat)
    (st : CheckerState) (c : Option Json) (ld : Option String) :
    (checkPackageJsonContent ctx fuel st c ld).1.localPackages = st.localPackages := by
  cases c with
  | none => rfl
  | some json =>
    simp only [checkPackageJsonContent]
    split
    · exact run_localPackages ctx fuel st _
    · exact run_localPackages ctx fuel st _

/-- The content loop never changes the local-package registry. -/
theorem contentLoop_localPackages (ctx : Ctx) (fuel : Nat) :
    ∀ files st, (contentLoop ctx fuel st files).1.localPackages = st.localPackages := by
  intro files
  induction files with
  | nil => intro st; rfl
  | cons f rest ih =>
    intro st
    obtain ⟨c, ld⟩ := f
    simp only [contentLoop]
    rw [ih, checkPackageJsonContent_localPackages]

/-- Pre-registration of local packages only grows the registry. -/
theorem registerLocalPackages_mem :
    ∀ (files : List (Option Json)) (st : CheckerState) (x : String),
      x ∈ st.localPackages → x ∈ (registerLocalPackages st files).1.localPackages := by
  intro files
  induction files with
  | nil => intro st x h; exact h
  | cons c rest ih =>
    intro st x h
    cases c with
    | none => exact h
    | some j =>
      simp only [registerLocalPackages]
      apply ih
      dsimp only
      split
      · exact mem_addToSet_of_mem _ h
      · exact h

/-- C6 counterexample: after a local-directory run that registered the local
package `m@1.0.0`, a second entry-point run on the same checker state still
carries `m@1.0.0` in the local-package registry — `init` clears only the
processed and failed sets, so the registry persists across two successive
runs, against the claim that all three sets are reset at the start of every
entry point. -/
theorem c6_local_registry_persists_cex :
    "m@1.0.0" ∈ (initState
        (checkLocalDirectory offlineCtx 5 emptyState
          [(some localMember, some "dir")]).1).localPackages ∧
    "m@1.0.0" ∈ ((checkRemotePackage offlineCtx 5
        (checkLocalDirectory offlineCtx 5 emptyState
          [(some localMember, some "dir")]).1) ("x") ("1.0.0")).1.localPackages := by
  refine ⟨by decide, by decide⟩

/-- C6 amended: `init` resets the processed and failed sets at the start of
every entry point and leaves the local-package registry untouched; no entry
point ever removes an element from the registry, so its contents persist
across successive runs on the same instance. -/
theorem c6_per_run_state_reset_amended :
    (∀ st, (initState st).processedPackages = [] ∧ (initState st).failedPackages = [] ∧
      (initState st).localPackages = st.localPackages) ∧
    (∀ ctx fuel st packageName fetchSpec x, x ∈ st.localPackages →
      x ∈ (checkRemotePackage ctx fuel st packageName fetchSpec).1.localPackages) ∧
    (∀ ctx fuel st files x, x ∈ st.localPackages →
      x ∈ (checkLocalDirectory ctx fuel st files).1.localPackages) ∧
    (∀ ctx fuel st files x, x ∈ st.localPackages →
      x ∈ (checkGitHubPR ctx fuel st files).1.localPackages) := by
  refine ⟨fun st => ⟨rfl, rfl, rfl⟩, ?_, ?_, ?_⟩
  · intro ctx fuel st pn vs x h
    simp only [checkRemotePackage]
    rw [run_localPackages]
    exact h
  · intro ctx fuel st files x h
    simp only [checkLocalDirectory]
    split
    · rw [contentLoop_localPackages]
      exact registerLocalPackages_mem _ _ _ h
    · exact registerLocalPackages_mem _ _ _ h
  · intro ctx fuel st files x h
    simp only [checkGitHubPR]
    rw [contentLoop_localPackages]
    exact h

/-- C6 amended witness: a registry element survives a remote-package run. -/
theorem c6_per_run_state_reset_amended_witness :
    "p@1.2.3" ∈ (checkRemotePackage offlineCtx 5 stateWithLocalP ("x") ("1.0.0")).1.localPackages :=
  c6_per_run_state_reset_amended.2.1 offlineCtx 5 stateWithLocalP ("x") ("1.0.0")
    ("p@1.2.3") (by decide)

/-- Exception profile of the traversal: `checkLicenses` catches everything
(it never returns an exception), and the dependency-recursion calls can only
propagate the dependency-value TypeError, never a schema error — the only
source of `invalidManifest` is `checkPackageJson`'s own validation step. -/
theorem run_exc_profile (ctx : Ctx) :
    ∀ fuel, (∀ st pn vs ld par, (run ctx fuel st (.licenses pn vs ld par)).exc = none) ∧
      (∀ st d ld par, (run ctx fuel st (.deps d ld par)).exc ≠ some Exc.invalidManifest) ∧
      (∀ st es ld par, (run ctx fuel st (.depsLoop es ld par)).exc ≠ some Exc.invalidManifest) := by
  intro fuel
  induction fuel with
  | zero =>
    refine ⟨fun st pn vs ld par => rfl, fun st d ld par => ?_, fun st es ld par => ?_⟩ <;>
      simp [run, runBase]
  | succ fuel ih =>
    obtain ⟨ihLic, ihDeps, ihLoop⟩ := ih
    refine ⟨?_, ?_, ?_⟩
    · intro st pn vs ld par
      show (checkLicensesBody ctx (run ctx fuel) st pn vs ld par).exc = none
      simp only [checkLicensesBody]
      repeat' split
      all_goals rfl
    · intro st d ld par
      show (checkLicensesForDepsBody (run ctx fuel) st d ld par).exc ≠ some Exc.invalidManifest
      simp only [checkLicensesForDepsBody]
      repeat' split
      all_goals first
        | exact ihLoop _ _ _ _
        | simp [noOut]
    · intro st es ld par
      show (depsLoopBody (run ctx fuel) st es ld par).exc ≠ some Exc.invalidManifest
      simp only [depsLoopBody]
      repeat' split
      all_goals first
        | exact ihLoop _ _ _ _
        | simp [noOut]

set_option maxHeartbeats 1000000 in
/-- Every event a traversal run emits satisfies the allowlist contract:
non-green findings only name non-allowlisted packages (the allowlisted
branch of `checkPackageJson` skips license classification entirely). -/
theorem run_findings_allb (ctx : Ctx) :
    ∀ fuel st c, (run ctx fuel st c).events.all (eventOKb ctx) = true := by
  intro fuel
  induction fuel with
  | zero => intro st c; rfl
  | succ fuel ih =>
    intro st c
    cases c with
    | licenses pn vs ld par =>
      show (checkLicensesBody ctx (run ctx fuel) st pn vs ld par).events.all (eventOKb ctx) = true
      simp only [checkLicensesBody]
      repeat' split
      all_goals (try simp_all [noOut, eventOKb, List.all_append])
      all_goals (repeat' (first | exact ih _ _ | refine ⟨?_, ?_⟩))
    | pkgJson json pn ld par =>
      show (checkPackageJsonBody ctx (run ctx fuel) st json pn ld par).events.all
        (eventOKb ctx) = true
      simp only [checkPackageJsonBody, classifyTail]
      repeat' split
      all_goals (try simp_all [noOut, eventOKb, List.all_append])
      all_goals (repeat' (first | exact ih _ _ | refine ⟨?_, ?_⟩))
    | deps d ld par =>
      show (checkLicensesForDepsBody (run ctx fuel) st d ld par).events.all (eventOKb ctx) = true
      simp only [checkLicensesForDepsBody]
      repeat' split
      all_goals (try simp_all [noOut, eventOKb, List.all_append])
      all_goals (repeat' (first | exact ih _ _ | refine ⟨?_, ?_⟩))
    | depsLoop es ld par =>
      show (depsLoopBody (run ctx fuel) st es ld par).events.all (eventOKb ctx) = true
      simp only [depsLoopBody]
      repeat' split
      all_goals (try simp_all [noOut, eventOKb, List.all_append])
      all_goals (repeat' (first | exact ih _ _ | refine ⟨?_, ?_⟩))

/-- Membership form of the allowlist contract on findings. -/
theorem run_findings_not_allowlisted (ctx : Ctx) (fuel : Nat) (st : CheckerState)
    (c : Call) (n v : String) (l : Option String) (p : List String)
    (h : Event.nonGreen n v l p ∈ (run ctx fuel st c).events) :
    isPackageAllowlisted ctx.rules n = false := by
  have hall := run_findings_allb ctx fuel st c
  rw [List.all_eq_true] at hall
  have := hall _ h
  simpa [eventOKb] using this

/-- A schema-validation exception escaping `checkPackageJson` can only come
from its own `ensurePackageJson` call, which runs only for non-allowlisted
effective names. -/
theorem pkgJson_invalid_exc (ctx : Ctx) (fuel : Nat) (st : CheckerState)
    (json : Json) (pn : Option Json) (ld : Option String) (par : List String)
    (h : (run ctx fuel st (.pkgJson json pn ld par)).exc = some Exc.invalidManifest) :
    isPackageAllowlisted ctx.rules (effectiveName pn json) = false := by
  cases fuel with
  | zero => exact absurd h (by simp [run, runBase])
  | succ fuel =>
    rw [show run ctx (fuel + 1) st (.pkgJson json pn ld par) =
      checkPackageJsonBody ctx (run ctx fuel) st json pn ld par from rfl] at h
    simp only [checkPackageJsonBody, classifyTail] at h
    split at h
    · next hcond =>
      rw [Bool.and_eq_true, Bool.not_eq_true'] at hcond
      exact hcond.1
    · repeat' split at h
      all_goals (try exact Option.noConfusion h)
      all_goals (try exact absurd h ((run_exc_profile ctx fuel).2.1 _ _ _ _))
      all_goals
        (dsimp only at h
         simp only [Option.some.injEq] at h
         subst h
         exact absurd (by assumption) ((run_exc_profile ctx fuel).2.1 _ _ _ _))

/-- C4: for a package whose effective name is on the package allowlist,
classification never raises the schema-validation error even on a malformed
manifest (the only exceptions that can escape are dependency-value
TypeErrors), never emits a non-green finding naming that package, and —
whenever the declared version is missing or not a valid semver — the
manifest used downstream carries the sentinel version "0.0.0". -/
theorem c4_allowlist_bypass (ctx : Ctx) (fuel : Nat) (st : CheckerState)
    (json : Json) (packageName : Option Json) (localDirectory : Option String)
    (parents : List String)
    (hallow : isPackageAllowlisted ctx.rules (effectiveName packageName json) = true) :
    ((checkPackageJson ctx fuel st json packageName localDirectory parents).exc ≠
      some Exc.invalidManifest) ∧
    (∀ v lic par2, Event.nonGreen (effectiveName packageName json) v lic par2 ∉
      (checkPackageJson ctx fuel st json packageName localDirectory parents).events) ∧
    (∀ fs, json = Json.obj fs → 0 < fuel →
      semverValidField (json.get ("version")) = false →
      (checkPackageJson ctx fuel st json packageName localDirectory
        parents).json.get ("version") = some (Json.str ("0.0.0"))) := by
  refine ⟨?_, ?_, ?_⟩
  · intro hcon
    have hfalse := pkgJson_invalid_exc ctx fuel st json packageName
      localDirectory parents hcon
    rw [hallow] at hfalse
    exact Bool.noConfusion hfalse
  · intro v lic par2 hmem
    have hfalse := run_findings_not_allowlisted ctx fuel st _
      (effectiveName packageName json) v lic par2 hmem
    rw [hallow] at hfalse
    exact Bool.noConfusion hfalse
  · intro fs hjson hfuel hsem
    cases fuel with
    | zero => omega
    | succ fuel =>
      show (checkPackageJsonBody ctx (run ctx fuel) st json packageName
        localDirectory parents).json.get ("version") = some (Json.str ("0.0.0"))
      simp only [checkPackageJsonBody, classifyTail, hallow, hsem, Bool.not_true,
        Bool.false_and, Bool.false_eq_true, if_false, if_true]
      subst hjson
      repeat' split
      all_goals simp [Json.set, Json.get, lookupField_setField_self]

/-- C4 witness: the allowlisted package "hello" with a malformed `licenses`
field and an invalid version raises no schema error, produces no finding
naming "hello", and is defaulted to version "0.0.0". -/
theorem c4_allowlist_bypass_witness :
    ((checkPackageJson helloAllowCtx 5 emptyState helloMalformed
        (some (.str "hello")) none []).exc ≠ some Exc.invalidManifest) ∧
    (Event.nonGreen ("hello") ("0.0.0") none [] ∉
      (checkPackageJson helloAllowCtx 5 emptyState helloMalformed
        (some (.str "hello")) none []).events) ∧
    ((checkPackageJson helloAllowCtx 5 emptyState helloMalformed
        (some (.str "hello")) none []).json.get ("version") = some (Json.str ("0.0.0"))) := by
  have h := c4_allowlist_bypass helloAllowCtx 5 emptyState helloMalformed
    (some (.str "hello")) none [] (by decide)
  refine ⟨h.1, ?_, ?_⟩
  · have h2 := h.2.1 ("0.0.0") none []
    simpa using h2
  · exact h.2.2 [("name", .str "hello"), ("version", .str "bogus"),
      ("licenses", .arr [.num 5])] rfl (by omega) (by decide)

/-- `Set.add` can only grow the set, in Bool form. -/
theorem contains_addToSet_mono {xs : List String} {k : String} (y : String)
    (h : xs.contains k = true) : (addToSet xs y).contains k = true := by
  have := @mem_addToSet_of_mem xs k y (by simpa using h)
  simpa using this

/-- The element just added is in the set, in Bool form. -/
theorem contains_addToSet_self (xs : List String) (x : String) :
    (addToSet xs x).contains x = true := by
  simpa using mem_addToSet_self xs x

/-- Prepending an event that does not match the monitored predicate
preserves the guarded-emission invariant. -/
theorem GuardInv.cons_skip {P : Event → Bool} {S : CheckerState → Bool}
    {st st' : CheckerState} {evts : List Event} {e : Event}
    (he : P e = false) (h : GuardInv P S st evts st') :
    GuardInv P S st (e :: evts) st' := by
  obtain ⟨m, c, f⟩ := h
  have hc : (e :: evts).countP P = evts.countP P := by
    rw [List.countP_cons, he]
    simp
  exact ⟨m, by rw [hc]; exact c, by rw [hc]; exact f⟩

/-- Defaulting the version to "0.0.0" preserves display consistency. -/
theorem displayOK_set_version (json : Json) (hd : DisplayOK json) :
    DisplayOK (json.set ("version") (.str "0.0.0")) := by
  rcases Json.get_set_self json ("version") (.str "0.0.0") with h | h
  · unfold DisplayOK
    rw [h]
    rfl
  · rw [h]
    exact hd

/-- The classification tail emits at most one finding, namely for its own
resolved key, and only when that key was not yet processed — the
guarded-emission invariant for findings, given that the recursive calls
already satisfy it. -/
theorem classifyTail_findInv (ctx : Ctx) (k : String)
    (recur : CheckerState → Call → Out)
    (hrec : ∀ st d ldd parr, GuardInv (isFindingKey k)
      (fun s => s.processedPackages.contains k) st
      (recur st (.deps d ldd parr)).events (recur st (.deps d ldd parr)).state)
    (st : CheckerState) (json' : Json) (effName : String) (isAllow : Bool)
    (ld : Option String) (par : List String) (hd : DisplayOK json') :
    GuardInv (isFindingKey k) (fun s => s.processedPackages.contains k) st
      (classifyTail ctx recur st json' effName isAllow ld par).events
      (classifyTail ctx recur st json' effName isAllow ld par).state := by
  simp only [classifyTail]
  by_cases hp : st.processedPackages.contains
      (effName ++ "@" ++ jsDisplay (json'.get ("version"))) = true
  · rw [if_pos hp]
    exact GuardInv.nil _ _ st
  · rw [if_neg hp]
    have hstep0 : GuardInv (isFindingKey k) (fun s => s.processedPackages.contains k) st
        (if isAllow = true then []
         else
           (if isGreenLicense ctx.rules (getLicense json') = true then []
            else [Event.nonGreen effName (jsTruthyDisplay (json'.get ("version")))
              (getLicense json') par]))
        { st with processedPackages := addToSet st.processedPackages (effName ++ "@" ++ jsDisplay (json'.get ("version"))) } := by
      have hkdisp : effName ++ "@" ++ jsTruthyDisplay (json'.get ("version")) =
          effName ++ "@" ++ jsDisplay (json'.get ("version")) := by
        rw [hd]
      by_cases hA : isAllow = true
      · rw [if_pos hA]
        exact GuardInv.of_no_events (fun h => contains_addToSet_mono _ h) rfl
      · rw [if_neg hA]
        by_cases hg : isGreenLicense ctx.rules (getLicense json') = true
        · rw [if_pos hg]
          exact GuardInv.of_no_events (fun h => contains_addToSet_mono _ h) rfl
        · rw [if_neg hg]
          refine ⟨fun h => contains_addToSet_mono _ h, ?_, ?_⟩
          · by_cases hkk : (effName ++ "@" ++ jsDisplay (json'.get ("version"))) = k
            · have hcnt : List.countP (isFindingKey k)
                  [Event.nonGreen effName (jsTruthyDisplay (json'.get ("version")))
                    (getLicense json') par] = 1 := by
                simp [isFindingKey, hkdisp, hkk]
              have hpf : k ∉ st.processedPackages := by
                rw [← hkk]
                simpa using hp
              rw [hcnt]
              simp [hpf]
            · have hcnt : List.countP (isFindingKey k)
                  [Event.nonGreen effName (jsTruthyDisplay (json'.get ("version")))
                    (getLicense json') par] = 0 := by
                simp [isFindingKey, hkdisp, hkk]
              rw [hcnt]
              split <;> omega
          · intro hpos
            by_cases hkk : (effName ++ "@" ++ jsDisplay (json'.get ("version"))) = k
            · rw [← hkk]
              exact contains_addToSet_self _ _
            · exfalso
              have hcnt : List.countP (isFindingKey k)
                  [Event.nonGreen effName (jsTruthyDisplay (json'.get ("version")))
                    (getLicense json') par] = 0 := by
                simp [isFindingKey, hkdisp, hkk]
              omega
    cases hexc : (recur { st with processedPackages := addToSet st.processedPackages (effName ++ "@" ++ jsDisplay (json'.get ("version"))) } (.deps (json'.get ("dependencies")) ld (par ++ [effName ++ "@" ++ jsDisplay (json'.get ("version"))]))).exc with
    | some e =>
      dsimp only
      apply GuardInv.comp hstep0
      exact hrec _ _ _ _
    | none =>
      dsimp only
      by_cases hdev : ctx.dev = true
      · rw [if_pos hdev]
        apply GuardInv.comp (GuardInv.comp hstep0 (hrec _ _ _ _))
        exact hrec _ _ _ _
      · rw [if_neg hdev]
        apply GuardInv.comp hstep0
        exact hrec _ _ _ _

/-- The finding-dedup invariant holds across the whole traversal: from any
state, any call emits at most one finding per resolved key, none at all for
keys already processed, and records emitted keys as processed — provided
every manifest the metadata source returns (and the one a `pkgJson` call
carries) displays its version consistently. -/
theorem run_findInv (ctx : Ctx) (hreg : RegistryDisplayOK ctx) (k : String) :
    ∀ fuel st c, CallDisplayOK c →
      GuardInv (isFindingKey k) (fun s => s.processedPackages.contains k) st
        (run ctx fuel st c).events (run ctx fuel st c).state := by
  intro fuel
  induction fuel with
  | zero => intro st c _; exact GuardInv.nil _ _ st
  | succ fuel ih =>
    intro st c hcall
    cases c with
    | licenses pn vs ld par =>
      show GuardInv _ _ st (checkLicensesBody ctx (run ctx fuel) st pn vs ld par).events
        (checkLicensesBody ctx (run ctx fuel) st pn vs ld par).state
      simp only [checkLicensesBody]
      by_cases h1 : st.failedPackages.contains (pn ++ "@" ++ vs) = true
      · rw [if_pos h1]
        exact GuardInv.nil _ _ st
      · rw [if_neg h1]
        by_cases h2 : st.localPackages.contains (pn ++ "@" ++ stripTildeCaret vs) = true
        · rw [if_pos h2]
          exact GuardInv.nil _ _ st
        · rw [if_neg h2]
          cases hr : ctx.registry pn vs ld with
          | none =>
            dsimp only
            exact GuardInv.of_no_events (fun h => h) rfl
          | some json =>
            dsimp only
            have hIH := ih st (.pkgJson json (some (.str pn)) ld par) (hreg _ _ _ _ hr)
            cases hexc : (run ctx fuel st (.pkgJson json (some (.str pn)) ld par)).exc with
            | none =>
              dsimp only
              exact GuardInv.cons_skip rfl hIH
            | some e =>
              dsimp only
              refine GuardInv.cons_skip rfl ?_
              apply GuardInv.comp hIH
              exact GuardInv.of_no_events (fun h => h) rfl
    | pkgJson json pn ld par =>
      have hdisp : DisplayOK json := hcall
      show GuardInv _ _ st (checkPackageJsonBody ctx (run ctx fuel) st json pn ld par).events
        (checkPackageJsonBody ctx (run ctx fuel) st json pn ld par).state
      simp only [checkPackageJsonBody]
      by_cases hv : (!(isPackageAllowlisted ctx.rules (effectiveName pn json)) &&
          !(isPackageJson json)) = true
      · rw [if_pos hv]
        exact GuardInv.nil _ _ st
      · rw [if_neg hv]
        apply classifyTail_findInv ctx k (run ctx fuel)
          (fun st2 d ldd parr => ih st2 (.deps d ldd parr) trivial)
        by_cases hA : isPackageAllowlisted ctx.rules (effectiveName pn json) = true
        · rw [if_pos hA]
          by_cases hsv : semverValidField (json.get ("version")) = true
          · rw [if_pos hsv]
            exact hdisp
          · rw [if_neg hsv]
            exact displayOK_set_version json hdisp
        · rw [if_neg hA]
          exact hdisp
    | deps d ld par =>
      show GuardInv _ _ st (checkLicensesForDepsBody (run ctx fuel) st d ld par).events
        (checkLicensesForDepsBody (run ctx fuel) st d ld par).state
      simp only [checkLicensesForDepsBody]
      cases d with
      | none => exact GuardInv.nil _ _ st
      | some v =>
        dsimp only
        by_cases hv : v.truthy = false
        · rw [if_pos hv]
          exact GuardInv.nil _ _ st
        · rw [if_neg hv]
          exact ih st (.depsLoop (depEntries v) ld par) trivial
    | depsLoop es ld par =>
      show GuardInv _ _ st (depsLoopBody (run ctx fuel) st es ld par).events
        (depsLoopBody (run ctx fuel) st es ld par).state
      simp only [depsLoopBody]
      cases es with
      | nil => exact GuardInv.nil _ _ st
      | cons e rest =>
        obtain ⟨pkg, depVersion⟩ := e
        cases depVersion with
        | str sv =>
          dsimp only
          apply GuardInv.comp (ih st (.licenses pkg sv ld par) trivial)
          exact ih _ (.depsLoop rest ld par) trivial
        | null => exact GuardInv.nil _ _ st
        | bool b => exact GuardInv.nil _ _ st
        | num n => exact GuardInv.nil _ _ st
        | arr xs => exact GuardInv.nil _ _ st
        | obj fs => exact GuardInv.nil _ _ st

/-- C1 counterexample: in the diamond graph (root depends on `a` and `b`,
both of which request `c@^1.0.0`, resolving to `c@1.0.2`), one remote-check
run fetches `c`'s metadata twice — once per incoming edge — while emitting
its finding once; the claim predicts exactly one fetch per resolved
version. -/
theorem c1_diamond_fetch_cex :
    diamondTrace.countP (isFetchOfName ("c")) = 2 ∧
    diamondTrace.countP (isFindingKey ("c@1.0.2")) = 1 ∧
    (2 : Nat) ≠ 1 := by
  refine ⟨by decide, by decide, by decide⟩

/-- C1 amended: in any remote-package run whose metadata source returns only
display-consistent manifests, at most one finding is emitted per resolved
`name@version` key (exactly one for the diamond's shared node), but the
metadata fetch is not deduplicated by resolved version: dedup happens only
after the fetch, via the processed set, so each dependency edge that
survives the failed/local guards triggers its own fetch — two fetches of the
shared package in the minimal diamond. -/
theorem c1_diamond_dedup_amended :
    (∀ ctx, RegistryDisplayOK ctx → ∀ fuel st packageName fetchSpec key,
      (checkRemotePackage ctx fuel st packageName fetchSpec).2.countP
        (isFindingKey key) ≤ 1) ∧
    diamondTrace.countP (isFindingKey ("c@1.0.2")) = 1 ∧
    diamondTrace.countP (isFetchOfName ("c")) = 2 := by
  refine ⟨?_, by decide, by decide⟩
  intro ctx hreg fuel st packageName fetchSpec key
  have h := run_findInv ctx hreg key fuel (initState st)
    (.licenses packageName fetchSpec none []) trivial
  obtain ⟨-, hcount, -⟩ := h
  show ((run ctx fuel (initState st) (.licenses packageName fetchSpec none [])).events ++
    [Event.endEvent]).countP (isFindingKey key) ≤ 1
  rw [List.countP_append]
  have hend : List.countP (isFindingKey key) [Event.endEvent] = 0 := rfl
  rw [hend]
  split at hcount
  · next hc => exact absurd hc (by simp [initState])
  · omega

/-- C1 amended witness: the at-most-once bound applied to the concrete
diamond context and the shared node's resolved key. -/
theorem c1_diamond_dedup_amended_witness :
    (checkRemotePackage diamondCtx 20 emptyState ("root") ("latest")).2.countP
      (isFindingKey ("c@1.0.2")) ≤ 1 := by
  apply c1_diamond_dedup_amended.1 diamondCtx
  intro pn vs ld j h
  have h2 : diamondRegistry pn vs ld = some j := h
  unfold diamondRegistry at h2
  split_ifs at h2
  all_goals first
    | exact Option.noConfusion h2
    | (rw [← Option.some.inj h2]; rfl)

/-- The classification tail performs no metadata fetch and never touches the
failed set, so it preserves any fetch-guard invariant satisfied by its
recursive dependency calls. -/
theorem classifyTail_fetchInv (ctx : Ctx) (s : String)
    (recur : CheckerState → Call → Out)
    (hrec : ∀ st d ldd parr, GuardInv (isFetchSpec s)
      (fun st2 => st2.failedPackages.contains s) st
      (recur st (.deps d ldd parr)).events (recur st (.deps d ldd parr)).state)
    (st : CheckerState) (json' : Json) (effName : String) (isAllow : Bool)
    (ld : Option String) (par : List String) :
    GuardInv (isFetchSpec s) (fun st2 => st2.failedPackages.contains s) st
      (classifyTail ctx recur st json' effName isAllow ld par).events
      (classifyTail ctx recur st json' effName isAllow ld par).state := by
  simp only [classifyTail]
  by_cases hp : st.processedPackages.contains
      (effName ++ "@" ++ jsDisplay (json'.get ("version"))) = true
  · rw [if_pos hp]
    exact GuardInv.nil _ _ st
  · rw [if_neg hp]
    have hstep0 : GuardInv (isFetchSpec s) (fun st2 => st2.failedPackages.contains s) st
        (if isAllow = true then []
         else
           (if isGreenLicense ctx.rules (getLicense json') = true then []
            else [Event.nonGreen effName (jsTruthyDisplay (json'.get ("version")))
              (getLicense json') par]))
        { st with processedPackages := addToSet st.processedPackages (effName ++ "@" ++ jsDisplay (json'.get ("version"))) } := by
      refine GuardInv.of_no_events (fun h => h) ?_
      by_cases hA : isAllow = true
      · rw [if_pos hA]
        rfl
      · rw [if_neg hA]
        by_cases hg : isGreenLicense ctx.rules (getLicense json') = true
        · rw [if_pos hg]
          rfl
        · rw [if_neg hg]
          rfl
    cases hexc : (recur { st with processedPackages := addToSet st.processedPackages (effName ++ "@" ++ jsDisplay (json'.get ("version"))) } (.deps (json'.get ("dependencies")) ld (par ++ [effName ++ "@" ++ jsDisplay (json'.get ("version"))]))).exc with
    | some e =>
      dsimp only
      apply GuardInv.comp hstep0
      exact hrec _ _ _ _
    | none =>
      dsimp only
      by_cases hdev : ctx.dev = true
      · rw [if_pos hdev]
        apply GuardInv.comp (GuardInv.comp hstep0 (hrec _ _ _ _))
        exact hrec _ _ _ _
      · rw [if_neg hdev]
        apply GuardInv.comp hstep0
        exact hrec _ _ _ _

/-- The fetch-guard invariant: if the metadata source fails permanently for
every (name, spec) edge whose request spec string equals `s`, then from any
state any call fetches `s` at most once — each failed fetch lands `s` in the
failed set and the failed-set guard of `checkLicenses` suppresses every
later fetch of it. -/
theorem run_fetchInv (ctx : Ctx) (s : String)
    (hfail : ∀ pn vs ld, pn ++ "@" ++ vs = s → ctx.registry pn vs ld = none) :
    ∀ fuel st c, GuardInv (isFetchSpec s) (fun st2 => st2.failedPackages.contains s) st
      (run ctx fuel st c).events (run ctx fuel st c).state := by
  intro fuel
  induction fuel with
  | zero => intro st c; exact GuardInv.nil _ _ st
  | succ fuel ih =>
    intro st c
    cases c with
    | licenses pn vs ld par =>
      show GuardInv _ _ st (checkLicensesBody ctx (run ctx fuel) st pn vs ld par).events
        (checkLicensesBody ctx (run ctx fuel) st pn vs ld par).state
      simp only [checkLicensesBody]
      by_cases h1 : st.failedPackages.contains (pn ++ "@" ++ vs) = true
      · rw [if_pos h1]
        exact GuardInv.nil _ _ st
      · rw [if_neg h1]
        by_cases h2 : st.localPackages.contains (pn ++ "@" ++ stripTildeCaret vs) = true
        · rw [if_pos h2]
          exact GuardInv.nil _ _ st
        · rw [if_neg h2]
          cases hr : ctx.registry pn vs ld with
          | none =>
            dsimp only
            by_cases hks : (pn ++ "@" ++ vs) = s
            · refine ⟨fun h => contains_addToSet_mono _ h, ?_, ?_⟩
              · have hcnt : List.countP (isFetchSpec s)
                    [Event.fetch pn vs, Event.fetchError pn vs par] = 1 := by
                  simp [isFetchSpec, hks]
                have hSf : s ∉ st.failedPackages := by
                  rw [← hks]
                  simpa using h1
                rw [hcnt]
                simp [hSf]
              · intro hpos
                show (addToSet st.failedPackages (pn ++ "@" ++ vs)).contains s = true
                rw [← hks]
                exact contains_addToSet_self _ _
            · refine GuardInv.of_no_events (fun h => contains_addToSet_mono _ h) ?_
              simp [isFetchSpec, hks]
          | some json =>
            dsimp only
            by_cases hks : (pn ++ "@" ++ vs) = s
            · rw [hfail pn vs ld hks] at hr
              exact Option.noConfusion hr
            · have hIH := ih st (.pkgJson json (some (.str pn)) ld par)
              cases hexc : (run ctx fuel st (.pkgJson json (some (.str pn)) ld par)).exc with
              | none =>
                dsimp only
                refine GuardInv.cons_skip ?_ hIH
                simp [isFetchSpec, hks]
              | some e =>
                dsimp only
                refine GuardInv.cons_skip (by simp [isFetchSpec, hks]) ?_
                apply GuardInv.comp hIH
                exact GuardInv.of_no_events (fun h => contains_addToSet_mono _ h) rfl
    | pkgJson json pn ld par =>
      show GuardInv _ _ st (checkPackageJsonBody ctx (run ctx fuel) st json pn ld par).events
        (checkPackageJsonBody ctx (run ctx fuel) st json pn ld par).state
      simp only [checkPackageJsonBody]
      by_cases hv : (!(isPackageAllowlisted ctx.rules (effectiveName pn json)) &&
          !(isPackageJson json)) = true
      · rw [if_pos hv]
        exact GuardInv.nil _ _ st
      · rw [if_neg hv]
        exact classifyTail_fetchInv ctx s (run ctx fuel)
          (fun st2 d ldd parr => ih st2 (.deps d ldd parr)) st _ _ _ ld par
    | deps d ld par =>
      show GuardInv _ _ st (checkLicensesForDepsBody (run ctx fuel) st d ld par).events
        (checkLicensesForDepsBody (run ctx fuel) st d ld par).state
      simp only [checkLicensesForDepsBody]
      cases d with
      | none => exact GuardInv.nil _ _ st
      | some v =>
        dsimp only
        by_cases hv : v.truthy = false
        · rw [if_pos hv]
          exact GuardInv.nil _ _ st
        · rw [if_neg hv]
          exact ih st (.depsLoop (depEntries v) ld par)
    | depsLoop es ld par =>
      show GuardInv _ _ st (depsLoopBody (run ctx fuel) st es ld par).events
        (depsLoopBody (run ctx fuel) st es ld par).state
      simp only [depsLoopBody]
      cases es with
      | nil => exact GuardInv.nil _ _ st
      | cons e rest =>
        obtain ⟨pkg, depVersion⟩ := e
        cases depVersion with
        | str sv =>
          dsimp only
          apply GuardInv.comp (ih st (.licenses pkg sv ld par))
          exact ih _ (.depsLoop rest ld par)
        | null => exact GuardInv.nil _ _ st
        | bool b => exact GuardInv.nil _ _ st
        | num n => exact GuardInv.nil _ _ st
        | arr xs => exact GuardInv.nil _ _ st
        | obj fs => exact GuardInv.nil _ _ st

/-- A trace ending in one appended event ends with that event. -/
theorem getLast_append_singleton (l : List Event) (e : Event) :
    (l ++ [e]).getLast? = some e := by
  induction l with
  | nil => rfl
  | cons a t ih =>
    rw [List.cons_append]
    cases ht : t ++ [e] with
    | nil => exact absurd ht (by simp)
    | cons b u =>
      rw [ht] at ih
      rw [List.getLast?_cons_cons, ih]

/-- C2: when a dependency edge's metadata fetch fails, `checkLicenses` adds
the requested spec `packageName@versionSpec` to the failed set and returns
with a fetch-error event carrying the requested (not resolved) version spec
and the current ancestor chain (first conjunct); the failure is non-fatal:
every run still ends with the terminal end event (second conjunct); a spec
whose fetch always fails is fetched at most once per run (third conjunct);
and in the concrete two-dependency run where `bad@^2.0.0` fails, the walk
continues past the failure to fetch `good@^3.0.0` and still signals
completion (fourth conjunct). -/
theorem c2_fetch_failure :
    (∀ ctx fuel st pn vs ld par,
      ctx.registry pn vs ld = none →
      st.failedPackages.contains (pn ++ "@" ++ vs) = false →
      st.localPackages.contains (pn ++ "@" ++ stripTildeCaret vs) = false →
      checkLicenses ctx (fuel + 1) st pn vs ld par =
        ({ st with failedPackages := addToSet st.failedPackages (pn ++ "@" ++ vs) },
         [Event.fetch pn vs, Event.fetchError pn vs par])) ∧
    (∀ ctx fuel st pn vs,
      ((checkRemotePackage ctx fuel st pn vs).2).getLast? = some Event.endEvent) ∧
    (∀ ctx s, (∀ pn vs ld, pn ++ "@" ++ vs = s → ctx.registry pn vs ld = none) →
      ∀ fuel st pn vs,
        ((checkRemotePackage ctx fuel st pn vs).2).countP (isFetchSpec s) ≤ 1) ∧
    (checkRemotePackage failCtx 20 emptyState ("top") ("latest")).2 =
      [Event.fetch ("top") ("latest"), Event.fetch ("bad") ("^2.0.0"),
       Event.fetchError ("bad") ("^2.0.0") (["top@1.0.0"]),
       Event.fetch ("good") ("^3.0.0"), Event.endEvent] := by
  refine ⟨?_, ?_, ?_, by rfl⟩
  · intro ctx fuel st pn vs ld par hr h1 h2
    have hrun : run ctx (fuel + 1) st (.licenses pn vs ld par) =
        checkLicensesBody ctx (run ctx fuel) st pn vs ld par := rfl
    simp only [checkLicenses, hrun, checkLicensesBody]
    rw [if_neg (by simpa using h1), if_neg (by simpa using h2), hr]
  · intro ctx fuel st pn vs
    exact getLast_append_singleton _ _
  · intro ctx s hfail fuel st pn vs
    have h := run_fetchInv ctx s hfail fuel (initState st)
      (.licenses pn vs none [])
    obtain ⟨-, hcount, -⟩ := h
    show ((run ctx fuel (initState st) (.licenses pn vs none [])).events ++
      [Event.endEvent]).countP (isFetchSpec s) ≤ 1
    rw [List.countP_append]
    have hend : List.countP (isFetchSpec s) [Event.endEvent] = 0 := rfl
    rw [hend]
    split at hcount
    · next hc => exact absurd hc (by simp [initState])
    · omega

/-- C2 witness: the failure equation applied to the failing edge of the
concrete run, and the fetch-at-most-once bound applied to the always-failing
metadata source. -/
theorem c2_fetch_failure_witness :
    checkLicenses failCtx 6 emptyState ("bad") ("^2.0.0") none (["top@1.0.0"]) =
      ({ emptyState with
          failedPackages := addToSet emptyState.failedPackages ("bad@^2.0.0") },
       [Event.fetch ("bad") ("^2.0.0"),
        Event.fetchError ("bad") ("^2.0.0") (["top@1.0.0"])]) ∧
    ((checkRemotePackage offlineCtx 5 emptyState ("p") ("^1.0.0")).2).countP
      (isFetchSpec ("p@^1.0.0")) ≤ 1 :=
  ⟨c2_fetch_failure.1 failCtx 5 emptyState ("bad") ("^2.0.0") none (["top@1.0.0"])
      (by rfl) (by rfl) (by rfl),
   c2_fetch_failure.2.2.1 offlineCtx ("p@^1.0.0") (fun _ _ _ _ => rfl)
      5 emptyState ("p") ("^1.0.0")⟩

end JsGreenLicenses
